import Mathlib

/-!
Shallow embedding of `src/ai_code_reviewer/parsers/diff_parser.py`.

A Python `str` is modelled as a `List Char`; Python `None`-able integers are
`Option Nat`.  The mutable single-pass scan of `DiffParser.parse` is modelled
as a fold of a `step` function over the list of physical lines, threading an
explicit `ParseState` (the loop variables `file_diffs`, `current_file`,
`current_hunk`, `old_line`, `new_line`).  Python regexes on anchored literal
patterns are modelled by hand-rolled deterministic matchers that agree with
the greedy/backtracking semantics of the concrete patterns used.
-/

/-- Mirrors `LineType` (enum with values context / addition / deletion). -/
inductive LineType where
  | context
  | addition
  | deletion
deriving DecidableEq, Repr

/-- Mirrors the `DiffLine` dataclass. -/
structure DiffLine where
  content : List Char
  line_type : LineType
  old_line_number : Option Nat := none
  new_line_number : Option Nat := none
deriving DecidableEq, Repr

/-- Mirrors `DiffLine.is_changed`. -/
def DiffLine.is_changed (l : DiffLine) : Bool :=
  l.line_type = LineType.addition ∨ l.line_type = LineType.deletion

/-- Mirrors the `DiffHunk` dataclass. -/
structure DiffHunk where
  old_start : Nat
  old_count : Nat
  new_start : Nat
  new_count : Nat
  lines : List DiffLine := []
  header : List Char := []
deriving DecidableEq, Repr

/-- Mirrors `DiffHunk.additions`. -/
def DiffHunk.additions (h : DiffHunk) : List DiffLine :=
  h.lines.filter (fun l => l.line_type = LineType.addition)

/-- Mirrors `DiffHunk.deletions`. -/
def DiffHunk.deletions (h : DiffHunk) : List DiffLine :=
  h.lines.filter (fun l => l.line_type = LineType.deletion)

/-- Mirrors `DiffHunk.changed_new_lines`: the list comprehension
`[l.new_line_number for l in self.additions if l.new_line_number]` keeps a
number only when it is truthy in Python, i.e. not `None` and not `0`. -/
def DiffHunk.changed_new_lines (h : DiffHunk) : List Nat :=
  h.additions.filterMap (fun l =>
    match l.new_line_number with
    | some n => if n = 0 then none else some n
    | none => none)

/-- Mirrors the `FileDiff` dataclass. -/
structure FileDiff where
  file_path : List Char
  old_path : Option (List Char) := none
  hunks : List DiffHunk := []
  is_new_file : Bool := false
  is_deleted_file : Bool := false
  is_renamed : Bool := false
deriving DecidableEq, Repr

/-- Mirrors `FileDiff.total_additions`. -/
def FileDiff.total_additions (f : FileDiff) : Nat :=
  (f.hunks.map (fun h => h.additions.length)).sum

/-- Mirrors `FileDiff.total_deletions`. -/
def FileDiff.total_deletions (f : FileDiff) : Nat :=
  (f.hunks.map (fun h => h.deletions.length)).sum

/-- Drops `p` from the front of `l`, or fails: the building block for the
anchored literal parts of the regex patterns. -/
def dropLit : List Char → List Char → Option (List Char)
  | [], l => some l
  | _ :: _, [] => none
  | a :: ps, b :: ls => if a = b then dropLit ps ls else none

/-- Splits `s` at the LAST occurrence of `sep` (greedy leftmost `(.*)` group
followed by a literal, as in `a/(.*) b/(.*)$`), returning the parts before
and after that occurrence. -/
def splitAtLast (sep : List Char) : List Char → Option (List Char × List Char)
  | [] => match dropLit sep [] with
          | some r => some ([], r)
          | none => none
  | c :: cs =>
    match splitAtLast sep cs with
    | some (x, y) => some (c :: x, y)
    | none =>
      match dropLit sep (c :: cs) with
      | some r => some ([], r)
      | none => none

/-- Mirrors `FILE_HEADER_PATTERN = ^diff --git a/(.*) b/(.*)$` (both groups
greedy, so the separator ` b/` is taken at its last occurrence). -/
def fileHeaderMatch (l : List Char) : Option (List Char × List Char) :=
  match dropLit ("diff --git a/").toList l with
  | some rest => splitAtLast (" b/").toList rest
  | none => none

/-- Mirrors `OLD_FILE_PATTERN = ^--- (?:a/)?(.*)$`. -/
def oldFileMatch (l : List Char) : Option (List Char) :=
  match dropLit ("--- ").toList l with
  | some rest =>
    match dropLit ("a/").toList rest with
    | some r => some r
    | none => some rest
  | none => none

/-- Mirrors `NEW_FILE_PATTERN = ^\+\+\+ (?:b/)?(.*)$`. -/
def newFileMatch (l : List Char) : Option (List Char) :=
  match dropLit ("+++ ").toList l with
  | some rest =>
    match dropLit ("b/").toList rest with
    | some r => some r
    | none => some rest
  | none => none

/-- Numeric value of a digit run, as Python `int` reads it. -/
def digitsToNat (ds : List Char) : Nat :=
  ds.foldl (fun n c => n * 10 + (c.toNat - 48)) 0

/-- Matches `(\d+)` (maximal digit run, at least one digit). -/
def matchNum (s : List Char) : Option (Nat × List Char) :=
  let ds := s.takeWhile Char.isDigit
  if ds.isEmpty then none
  else some (digitsToNat ds, s.dropWhile Char.isDigit)

/-- Matches the optional group `(?:,(\d+))?` of the hunk-header pattern.  If
a comma is present it must be followed by digits: when it is not, neither
taking the group nor skipping it can make the rest of the pattern (which
next requires a space) match, so the whole match fails, as with the regex. -/
def matchOptCount (s : List Char) : Option (Option Nat × List Char) :=
  match s with
  | ',' :: r =>
    match matchNum r with
    | some (n, r2) => some (some n, r2)
    | none => none
  | _ => some (none, s)

/-- Mirrors `HUNK_HEADER_PATTERN = ^@@ -(\d+)(?:,(\d+))? \+(\d+)(?:,(\d+))? @@(.*)$`,
returning (group1, group2, group3, group4, group5). -/
def hunkHeaderMatch (l : List Char) :
    Option (Nat × Option Nat × Nat × Option Nat × List Char) :=
  match dropLit ("@@ -").toList l with
  | none => none
  | some r1 =>
    match matchNum r1 with
    | none => none
    | some (os, r2) =>
      match matchOptCount r2 with
      | none => none
      | some (oc, r3) =>
        match dropLit (" +").toList r3 with
        | none => none
        | some r4 =>
          match matchNum r4 with
          | none => none
          | some (ns, r5) =>
            match matchOptCount r5 with
            | none => none
            | some (nc, r6) =>
              match dropLit (" @@").toList r6 with
              | none => none
              | some rest => some (os, oc, ns, nc, rest)

/-- Whitespace as Python `str.strip()` removes it (`str.isspace` characters). -/
def isPySpace (c : Char) : Bool :=
  (9 ≤ c.toNat ∧ c.toNat ≤ 13) ∨ (28 ≤ c.toNat ∧ c.toNat ≤ 31) ∨
  c.toNat = 32 ∨ c.toNat = 133 ∨ c.toNat = 160 ∨ c.toNat = 5760 ∨
  (8192 ≤ c.toNat ∧ c.toNat ≤ 8202) ∨ c.toNat = 8232 ∨ c.toNat = 8233 ∨
  c.toNat = 8239 ∨ c.toNat = 8287 ∨ c.toNat = 12288

/-- Mirrors Python `str.strip()`. -/
def pyStrip (s : List Char) : List Char :=
  ((s.dropWhile isPySpace).reverse.dropWhile isPySpace).reverse

/-- Mirrors Python `str.split('\n')` (always at least one piece; a trailing
newline yields a final empty piece). -/
def splitLines : List Char → List (List Char)
  | [] => [[]]
  | c :: cs =>
    if c = '\n' then [] :: splitLines cs
    else
      match splitLines cs with
      | l :: ls => (c :: l) :: ls
      | [] => [[c]]

/-- The loop variables of `DiffParser.parse`. -/
structure ParseState where
  file_diffs : List FileDiff
  current_file : Option FileDiff
  current_hunk : Option DiffHunk
  old_line : Nat
  new_line : Nat
deriving DecidableEq, Repr

/-- Initial values of the loop variables of `DiffParser.parse`. -/
def DiffParser.initState : ParseState :=
  { file_diffs := [], current_file := none, current_hunk := none,
    old_line := 0, new_line := 0 }

/-- One iteration of the `while i < len(lines)` loop of `DiffParser.parse`,
processing a single physical line.  The branch order follows the source: file
header, `new file mode`, `deleted file mode`, `rename from`/`rename to`,
old-file marker, new-file marker, hunk header, hunk-body classification. -/
def DiffParser.step (s : ParseState) (line : List Char) : ParseState :=
  match fileHeaderMatch line with
  | some (oldp, newp) =>
    { file_diffs := s.file_diffs ++ s.current_file.toList,
      current_file := some { file_path := newp, old_path := some oldp },
      current_hunk := none,
      old_line := s.old_line, new_line := s.new_line }
  | none =>
    if ("new file mode").toList.isPrefixOf line then
      { s with current_file :=
          s.current_file.map (fun f => { f with is_new_file := true }) }
    else if ("deleted file mode").toList.isPrefixOf line then
      { s with current_file :=
          s.current_file.map (fun f => { f with is_deleted_file := true }) }
    else if ("rename from").toList.isPrefixOf line ∨
            ("rename to").toList.isPrefixOf line then
      { s with current_file :=
          s.current_file.map (fun f => { f with is_renamed := true }) }
    else
      match oldFileMatch line with
      | some _ =>
        match s.current_file with
        | none => { s with current_file := some { file_path := [] } }
        | some _ => s
      | none =>
        match newFileMatch line with
        | some p =>
          match s.current_file with
          | some f =>
            if f.file_path = [] ∧ p ≠ ("/dev/null").toList then
              { s with current_file := some { f with file_path := p } }
            else s
          | none => s
        | none =>
          match hunkHeaderMatch line with
          | some (os, oc, ns, nc, hdr) =>
            { s with
              current_file :=
                match s.current_hunk, s.current_file with
                | some h, some f => some { f with hunks := f.hunks ++ [h] }
                | _, _ => s.current_file,
              current_hunk := some
                { old_start := os, old_count := oc.getD 1,
                  new_start := ns, new_count := nc.getD 1,
                  lines := [], header := pyStrip hdr },
              old_line := os, new_line := ns }
          | none =>
            match s.current_hunk with
            | none => s
            | some h =>
              if line.head? = some '+' ∧
                 ¬ ("+++").toList.isPrefixOf line then
                { s with
                  current_hunk := some { h with lines := h.lines ++
                    [{ content := line.drop 1, line_type := LineType.addition,
                       old_line_number := none,
                       new_line_number := some s.new_line }] },
                  new_line := s.new_line + 1 }
              else if line.head? = some '-' ∧
                      ¬ ("---").toList.isPrefixOf line then
                { s with
                  current_hunk := some { h with lines := h.lines ++
                    [{ content := line.drop 1, line_type := LineType.deletion,
                       old_line_number := some s.old_line,
                       new_line_number := none }] },
                  old_line := s.old_line + 1 }
              else if line.head? = some ' ' ∨ line = [] then
                { s with
                  current_hunk := some { h with lines := h.lines ++
                    [{ content := if line.head? = some ' '
                                  then line.drop 1 else line,
                       line_type := LineType.context,
                       old_line_number := some s.old_line,
                       new_line_number := some s.new_line }] },
                  old_line := s.old_line + 1, new_line := s.new_line + 1 }
              else s

/-- The code after the loop of `DiffParser.parse`: a still-open hunk is
appended to a still-open file, which is appended to the result. -/
def DiffParser.finalize (s : ParseState) : List FileDiff :=
  match s.current_file with
  | none => s.file_diffs
  | some f =>
    match s.current_hunk with
    | some h => s.file_diffs ++ [{ f with hunks := f.hunks ++ [h] }]
    | none => s.file_diffs ++ [f]

/-- Mirrors `DiffParser.parse`. -/
def DiffParser.parse (diff : List Char) : List FileDiff :=
  DiffParser.finalize
    ((splitLines diff).foldl DiffParser.step DiffParser.initState)

/-- Placeholder `DiffLine` used only as the default of list lookups in
theorem statements. -/
def dummyLine : DiffLine :=
  { content := [], line_type := LineType.context }

/-- Placeholder `DiffHunk` used only as the default of list lookups in
theorem statements. -/
def dummyHunk : DiffHunk :=
  { old_start := 0, old_count := 0, new_start := 0, new_count := 0 }

/-- Placeholder `FileDiff` used only as the default of list lookups in
theorem statements. -/
def dummyFile : FileDiff := { file_path := [] }

/-- Concrete scenario A input of the spec (the git header, the two file
markers, the hunk header and the seven body lines, newline separated). -/
def scenarioA : List Char :=
  ("diff --git a/example.py b/example.py\n--- a/example.py\n+++ b/example.py\n@@ -1,5 +1,7 @@\n def hello():\n-    print(\"Hello\")\n+    print(\"Hello, World!\")\n+    return True\n\n def main():\n     hello()").toList

/-- Concrete scenario E style input: a hunk header with both counts
omitted. -/
def scenarioE : List Char :=
  ("diff --git a/f b/f\n@@ -1 +1 @@\n+x").toList

/-- A two-file diff in which the first file's only hunk is still open when
the second `diff --git` header is reached. -/
def twoFileOpenHunkInput : List Char :=
  ("diff --git a/f1 b/f1\n@@ -1 +1 @@\n+x\ndiff --git a/f2 b/f2\n@@ -1 +1 @@\n+y").toList

/-- A diff whose `new file mode` marker precedes any file-opening header
line. -/
def newFileModeFirstInput : List Char :=
  ("new file mode 100644\n--- a/f\n+++ b/f\n@@ -0,0 +1 @@\n+x").toList

/-- A bare (headerless) deletion patch: `+++` reads `/dev/null`, so if the
path were taken from the `---` marker it would be `gone.py`. -/
def bareDeletionInput : List Char :=
  ("--- a/gone.py\n+++ /dev/null\n@@ -1 +0,0 @@\n-x").toList

/-- A diff whose hunk header declares `new_start = 0`, so its first addition
line is stamped with new-file line number `0`. -/
def zeroNewStartInput : List Char :=
  ("diff --git a/f b/f\n@@ -1 +0,2 @@\n+x").toList

/-- A newline-terminated input that opens a hunk but never opens a
`FileDiff` (no `diff --git` and no `---` line). -/
def headerlessHunkInput : List Char :=
  ("@@ -1 +1 @@\n").toList

/-- A newline-terminated diff whose hunk (and file) are still open at end of
input. -/
def openHunkNewlineInput : List Char :=
  ("diff --git a/f b/f\n@@ -1 +1 @@\n+x\n").toList

/-- The `new_line_number` values stamped on the context and addition lines
of a hunk, in line order (deletion lines carry no new-file number). -/
def hunkNewNumbers (h : DiffHunk) : List Nat :=
  h.lines.filterMap (fun l =>
    match l.line_type with
    | LineType.deletion => none
    | _ => l.new_line_number)

/-- The consecutive run `[s, s+1, ..., s+k-1]`. -/
def consecFrom (s : Nat) : Nat → List Nat
  | 0 => []
  | k + 1 => s :: consecFrom (s + 1) k

/-- The claim's reading of `changed_new_lines` (spec wording): the new-file
line numbers of ALL addition lines of the hunk, in line order. -/
def specAdditionNewLineNumbers (h : DiffHunk) : List Nat :=
  h.additions.filterMap (fun l => l.new_line_number)

/-- A line matching one of the recognized header forms of `parse` (file
header, mode/rename markers, old/new file markers, hunk header). -/
def isHeaderLine (l : List Char) : Bool :=
  (fileHeaderMatch l).isSome ||
  ("new file mode").toList.isPrefixOf l ||
  ("deleted file mode").toList.isPrefixOf l ||
  ("rename from").toList.isPrefixOf l ||
  ("rename to").toList.isPrefixOf l ||
  (oldFileMatch l).isSome ||
  (newFileMatch l).isSome ||
  (hunkHeaderMatch l).isSome

/-- A line that triggers the `new file mode` branch of `parse`. -/
def hasNewFileModeMarker (l : List Char) : Bool :=
  ("new file mode").toList.isPrefixOf l

/-- Per-hunk invariant: the stamped new-file numbers of its context and
addition lines form the consecutive run starting at `new_start`. -/
def hunkOk (h : DiffHunk) : Prop :=
  hunkNewNumbers h = consecFrom h.new_start (hunkNewNumbers h).length

/-- Per-file invariant: all recorded hunks satisfy `hunkOk`. -/
def fileOk (f : FileDiff) : Prop := ∀ h ∈ f.hunks, hunkOk h

/-- Parse-loop invariant for the new-file line numbering: finished files and
the open file only hold good hunks, and the open hunk is good with the
`new_line` cursor one past its last stamped number. -/
def stateOk (s : ParseState) : Prop :=
  (∀ f ∈ s.file_diffs, fileOk f) ∧
  (∀ f, s.current_file = some f → fileOk f) ∧
  (∀ h, s.current_hunk = some h →
    hunkOk h ∧ s.new_line = h.new_start + (hunkNewNumbers h).length)

/-- Paths of finished and open files never equal `/dev/null`: the invariant
behind the `/dev/null` sentinel handling. -/
def noDevNullPath (s : ParseState) : Prop :=
  (∀ f ∈ s.file_diffs, f.file_path ≠ ("/dev/null").toList) ∧
  (∀ f, s.current_file = some f → f.file_path ≠ ("/dev/null").toList)

theorem dropLit_eq_append {p l r : List Char} (h : dropLit p l = some r) :
    l = p ++ r := by
  induction p generalizing l with
  | nil =>
    simp only [dropLit, Option.some.injEq] at h
    simpa using h
  | cons a ps ih =>
    cases l with
    | nil => simp [dropLit] at h
    | cons b ls =>
      by_cases hab : a = b
      · subst hab
        simp only [dropLit, if_pos rfl] at h
        simpa using ih h
      · simp [dropLit, hab] at h

theorem consecFrom_snoc (s k : Nat) :
    consecFrom s (k + 1) = consecFrom s k ++ [s + k] := by
  induction k generalizing s with
  | zero => simp [consecFrom]
  | succ k ih =>
    have e : s + 1 + k = s + (k + 1) := by omega
    show s :: consecFrom (s + 1) (k + 1) = (s :: consecFrom (s + 1) k) ++ [s + (k + 1)]
    rw [ih (s + 1), e]
    simp

theorem le_of_mem_consecFrom {x s k : Nat} (h : x ∈ consecFrom s k) :
    s ≤ x := by
  induction k generalizing s with
  | zero => simp [consecFrom] at h
  | succ k ih =>
    simp only [consecFrom, List.mem_cons] at h
    rcases h with rfl | h
    · exact Nat.le_refl x
    · exact Nat.le_of_succ_le (ih h)

theorem pairwise_consecFrom (s k : Nat) :
    List.Pairwise (fun a b => a < b) (consecFrom s k) := by
  induction k generalizing s with
  | zero => simp [consecFrom]
  | succ k ih =>
    refine List.Pairwise.cons (fun x hx => ?_) (ih (s + 1))
    exact Nat.lt_of_succ_le (le_of_mem_consecFrom hx)

theorem head_consecFrom {s k x : Nat}
    (h : (consecFrom s k).head? = some x) : x = s := by
  cases k with
  | zero => simp [consecFrom] at h
  | succ k => simpa [consecFrom] using h.symm

theorem splitLines_ne_nil (t : List Char) : splitLines t ≠ [] := by
  cases t with
  | nil => simp [splitLines]
  | cons c cs =>
    by_cases hc : c = '\n'
    · simp [splitLines, hc]
    · simp only [splitLines, if_neg hc]
      cases splitLines cs <;> simp

theorem splitLines_append_newline (t : List Char) :
    splitLines (t ++ ['\n']) = splitLines t ++ [[]] := by
  induction t with
  | nil => rfl
  | cons c cs ih =>
    by_cases hc : c = '\n'
    · simp [splitLines, hc, ih]
    · rcases hsp : splitLines cs with _ | ⟨l, ls⟩
      · exact absurd hsp (splitLines_ne_nil cs)
      · have e1 : splitLines (c :: cs ++ ['\n']) =
            match splitLines (cs ++ ['\n']) with
            | l :: ls => (c :: l) :: ls
            | [] => [[c]] := by
          simp [splitLines, hc]
        rw [e1, ih, hsp]
        simp [splitLines, hc, hsp]

theorem fileHeaderMatch_at_hunk (t : List Char) :
    fileHeaderMatch (("@@ -").toList ++ t) = none := rfl

theorem oldFileMatch_at_hunk (t : List Char) :
    oldFileMatch (("@@ -").toList ++ t) = none := rfl

theorem newFileMatch_at_hunk (t : List Char) :
    newFileMatch (("@@ -").toList ++ t) = none := rfl

theorem nfm_at_hunk (t : List Char) :
    ("new file mode").toList.isPrefixOf (("@@ -").toList ++ t) = false := by
  simp [List.isPrefixOf]

theorem dfm_at_hunk (t : List Char) :
    ("deleted file mode").toList.isPrefixOf (("@@ -").toList ++ t) = false := by
  simp [List.isPrefixOf]

theorem renFrom_at_hunk (t : List Char) :
    ("rename from").toList.isPrefixOf (("@@ -").toList ++ t) = false := by
  simp [List.isPrefixOf]

theorem renTo_at_hunk (t : List Char) :
    ("rename to").toList.isPrefixOf (("@@ -").toList ++ t) = false := by
  simp [List.isPrefixOf]

theorem fileHeaderMatch_at_nfm (t : List Char) :
    fileHeaderMatch (("new file mode").toList ++ t) = none := rfl

theorem nfm_isPrefixOf_self (t : List Char) :
    ("new file mode").toList.isPrefixOf (("new file mode").toList ++ t) = true :=
  ( List.isPrefixOf_iff_prefix).mpr (List.prefix_append _ _)

theorem hunkHeaderMatch_shape {l : List Char}
    {r : Nat × Option Nat × Nat × Option Nat × List Char}
    (hm : hunkHeaderMatch l = some r) :
    ∃ t, l = ("@@ -").toList ++ t := by
  unfold hunkHeaderMatch at hm
  cases hd : dropLit (("@@ -").toList) l with
  | none => rw [hd] at hm; exact absurd hm (by simp)
  | some r1 => exact ⟨r1, dropLit_eq_append hd⟩

theorem hasNewFileModeMarker_shape {l : List Char}
    (h : hasNewFileModeMarker l = true) :
    ∃ t, l = ("new file mode").toList ++ t := by
  unfold hasNewFileModeMarker at h
  obtain ⟨t, ht⟩ := ( List.isPrefixOf_iff_prefix).mp h
  exact ⟨t, ht.symm⟩

theorem step_fileHeader {l o p : List Char} (s : ParseState)
    (hm : fileHeaderMatch l = some (o, p)) :
    DiffParser.step s l =
      { file_diffs := s.file_diffs ++ s.current_file.toList,
        current_file := some { file_path := p, old_path := some o },
        current_hunk := none,
        old_line := s.old_line, new_line := s.new_line } := by
  simp only [DiffParser.step, hm]

theorem step_newFileMode {l : List Char} (s : ParseState)
    (h : hasNewFileModeMarker l = true) :
    DiffParser.step s l =
      { s with current_file :=
          s.current_file.map (fun f => { f with is_new_file := true }) } := by
  obtain ⟨t, rfl⟩ := hasNewFileModeMarker_shape h
  simp only [DiffParser.step, fileHeaderMatch_at_nfm, nfm_isPrefixOf_self, if_true]

theorem step_hunkHeader {l : List Char} {os ns : Nat} {oc nc : Option Nat}
    {hdr : List Char} (s : ParseState)
    (hm : hunkHeaderMatch l = some (os, oc, ns, nc, hdr)) :
    DiffParser.step s l =
      { s with
        current_file :=
          match s.current_hunk, s.current_file with
          | some h, some f => some { f with hunks := f.hunks ++ [h] }
          | _, _ => s.current_file,
        current_hunk := some
          { old_start := os, old_count := oc.getD 1,
            new_start := ns, new_count := nc.getD 1,
            lines := [], header := pyStrip hdr },
        old_line := os, new_line := ns } := by
  obtain ⟨t, rfl⟩ := hunkHeaderMatch_shape hm
  simp only [DiffParser.step, fileHeaderMatch_at_hunk, oldFileMatch_at_hunk,
    newFileMatch_at_hunk, nfm_at_hunk, dfm_at_hunk, renFrom_at_hunk,
    renTo_at_hunk, hm, Bool.false_eq_true, if_false, or_self]

theorem step_nil_openHunk {h : DiffHunk} (s : ParseState)
    (hh : s.current_hunk = some h) :
    DiffParser.step s [] =
      { s with
        current_hunk := some { h with lines := h.lines ++
          [{ content := [], line_type := LineType.context,
             old_line_number := some s.old_line,
             new_line_number := some s.new_line }] },
        old_line := s.old_line + 1, new_line := s.new_line + 1 } := by
  simp only [DiffParser.step, hh]
  rfl

theorem step_noFile (s : ParseState) (l : List Char) (hcf : s.current_file = none)
    (h1 : fileHeaderMatch l = none) (h2 : oldFileMatch l = none) :
    (DiffParser.step s l).current_file = none ∧
    (DiffParser.step s l).file_diffs = s.file_diffs := by
  refine ⟨?_, ?_⟩ <;>
  · simp only [DiffParser.step, h1, h2]
    repeat' split
    all_goals simp_all

theorem step_keepFile (s : ParseState) (l : List Char) {f : FileDiff}
    (hcf : s.current_file = some f) (hfp : f.file_path ≠ [])
    (hl : fileHeaderMatch l = none) :
    (DiffParser.step s l).file_diffs = s.file_diffs ∧
    ((DiffParser.step s l).current_file.map FileDiff.file_path) =
      some f.file_path ∧
    ((DiffParser.step s l).current_file.map FileDiff.is_new_file) =
      some (f.is_new_file || hasNewFileModeMarker l) := by
  refine ⟨?_, ?_, ?_⟩ <;>
  · simp only [DiffParser.step, hl, hasNewFileModeMarker]
    repeat' split
    all_goals simp_all

theorem step_inert (s : ParseState) (l : List Char)
    (h : isHeaderLine l = false) (hcf : s.current_file = none)
    (hch : s.current_hunk = none) : DiffParser.step s l = s := by
  rw [isHeaderLine] at h
  simp only [Bool.or_eq_false_iff, and_assoc] at h
  obtain ⟨hf, hn, hd, hrf, hrt, ho, hnw, hh2⟩ := h
  have hf' : fileHeaderMatch l = none := by simp_all
  have ho' : oldFileMatch l = none := by simp_all
  have hnw' : newFileMatch l = none := by simp_all
  have hh2' : hunkHeaderMatch l = none := by simp_all
  simp only [DiffParser.step, hf', ho', hnw', hh2', hn, hd, hrf, hrt, hch,
    Bool.false_eq_true, if_false, or_self]

theorem foldl_inert (ls : List (List Char)) (s : ParseState)
    (h : ∀ l ∈ ls, isHeaderLine l = false) (hcf : s.current_file = none)
    (hch : s.current_hunk = none) :
    List.foldl DiffParser.step s ls = s := by
  induction ls with
  | nil => rfl
  | cons l ls ih =>
    rw [List.foldl_cons, step_inert s l (h l (by simp)) hcf hch]
    exact ih (fun x hx => h x (by simp [hx]))

theorem foldl_noFile (ls : List (List Char)) (s : ParseState)
    (hcf : s.current_file = none)
    (h : ∀ l ∈ ls, fileHeaderMatch l = none ∧ oldFileMatch l = none) :
    (List.foldl DiffParser.step s ls).current_file = none ∧
    (List.foldl DiffParser.step s ls).file_diffs = s.file_diffs := by
  induction ls generalizing s with
  | nil => exact ⟨hcf, rfl⟩
  | cons l ls ih =>
    obtain ⟨h1, h2⟩ := h l (by simp)
    obtain ⟨hc, hd⟩ := step_noFile s l hcf h1 h2
    rw [List.foldl_cons]
    obtain ⟨hc', hd'⟩ := ih (DiffParser.step s l) hc
      (fun x hx => h x (by simp [hx]))
    exact ⟨hc', by rw [hd', hd]⟩

theorem foldl_keepFile (ls : List (List Char)) (s : ParseState) (f : FileDiff)
    (hcf : s.current_file = some f) (hfp : f.file_path ≠ [])
    (hls : ∀ l ∈ ls, fileHeaderMatch l = none) :
    ∃ f', (List.foldl DiffParser.step s ls).current_file = some f' ∧
      (List.foldl DiffParser.step s ls).file_diffs = s.file_diffs ∧
      f'.file_path = f.file_path ∧
      f'.is_new_file = (f.is_new_file || ls.any hasNewFileModeMarker) := by
  induction ls generalizing s f with
  | nil => exact ⟨f, hcf, rfl, rfl, by simp⟩
  | cons l ls ih =>
    obtain ⟨hd, hp, hn⟩ := step_keepFile s l hcf hfp (hls l (by simp))
    rcases hcf1 : (DiffParser.step s l).current_file with _ | f1
    · rw [hcf1] at hp; simp at hp
    · rw [hcf1] at hp hn
      simp only [Option.map_some', Option.some.injEq] at hp hn
      have hfp1 : f1.file_path ≠ [] := by rw [hp]; exact hfp
      obtain ⟨f', hf'1, hf'2, hf'3, hf'4⟩ :=
        ih (DiffParser.step s l) f1 hcf1 hfp1 (fun x hx => hls x (by simp [hx]))
      refine ⟨f', by rw [List.foldl_cons]; exact hf'1,
        by rw [List.foldl_cons, hf'2, hd], by rw [hf'3, hp], ?_⟩
      rw [hf'4, hn, List.any_cons]
      cases f.is_new_file <;> cases hasNewFileModeMarker l <;> simp

theorem finalize_of_file {f : FileDiff} (s : ParseState)
    (hcf : s.current_file = some f) :
    ∃ f', DiffParser.finalize s = s.file_diffs ++ [f'] ∧
      f'.file_path = f.file_path ∧ f'.is_new_file = f.is_new_file := by
  unfold DiffParser.finalize
  rw [hcf]
  cases s.current_hunk with
  | some h => exact ⟨{ f with hunks := f.hunks ++ [h] }, rfl, rfl, rfl⟩
  | none => exact ⟨f, rfl, rfl, rfl⟩

theorem hunkNewNumbers_snoc_addition (h : DiffHunk) (c : List Char) (n : Nat) :
    hunkNewNumbers { h with lines := h.lines ++
      [{ content := c, line_type := LineType.addition,
         old_line_number := none, new_line_number := some n }] } =
    hunkNewNumbers h ++ [n] := by
  simp [hunkNewNumbers, List.filterMap_append]

theorem hunkNewNumbers_snoc_deletion (h : DiffHunk) (c : List Char) (o : Nat) :
    hunkNewNumbers { h with lines := h.lines ++
      [{ content := c, line_type := LineType.deletion,
         old_line_number := some o, new_line_number := none }] } =
    hunkNewNumbers h := by
  simp [hunkNewNumbers, List.filterMap_append]

theorem hunkNewNumbers_snoc_context (h : DiffHunk) (c : List Char) (o n : Nat) :
    hunkNewNumbers { h with lines := h.lines ++
      [{ content := c, line_type := LineType.context,
         old_line_number := some o, new_line_number := some n }] } =
    hunkNewNumbers h ++ [n] := by
  simp [hunkNewNumbers, List.filterMap_append]

theorem hunkOk_snocNew (h : DiffHunk) (nl : Nat) (dl : DiffLine)
    (hOk : hunkOk h) (hnl : nl = h.new_start + (hunkNewNumbers h).length)
    (hdl : hunkNewNumbers { h with lines := h.lines ++ [dl] } =
      hunkNewNumbers h ++ [nl]) :
    hunkOk { h with lines := h.lines ++ [dl] } ∧
    nl + 1 = ({ h with lines := h.lines ++ [dl] } : DiffHunk).new_start +
      (hunkNewNumbers { h with lines := h.lines ++ [dl] }).length := by
  have hns : ({ h with lines := h.lines ++ [dl] } : DiffHunk).new_start =
      h.new_start := rfl
  constructor
  · unfold hunkOk
    rw [hdl, hns, List.length_append]
    calc hunkNewNumbers h ++ [nl]
        = consecFrom h.new_start (hunkNewNumbers h).length ++
            [h.new_start + (hunkNewNumbers h).length] := by rw [← hOk, hnl]
      _ = consecFrom h.new_start ((hunkNewNumbers h).length + 1) :=
          (consecFrom_snoc _ _).symm
      _ = consecFrom h.new_start ((hunkNewNumbers h).length + [nl].length) := by
          simp
  · rw [hns, hdl, List.length_append]
    simp only [List.length_cons, List.length_nil]
    omega

theorem stateOk_updateFileMap (s : ParseState) (g : FileDiff → FileDiff)
    (hg : ∀ f, (g f).hunks = f.hunks) (hs : stateOk s) :
    stateOk { s with current_file := s.current_file.map g } := by
  obtain ⟨inv1, inv2, inv3⟩ := hs
  refine ⟨inv1, ?_, ?_⟩
  · intro f hf
    simp only [Option.map_eq_some'] at hf
    obtain ⟨f0, hf0, rfl⟩ := hf
    intro h hh
    rw [hg f0] at hh
    exact inv2 f0 hf0 h hh
  · intro h hh
    exact inv3 h hh

theorem fileHeaderMatch_at_dfm (t : List Char) :
    fileHeaderMatch (("deleted file mode").toList ++ t) = none := rfl

theorem nfm_at_dfm (t : List Char) :
    ("new file mode").toList.isPrefixOf (("deleted file mode").toList ++ t) =
      false := by
  simp [List.isPrefixOf]

theorem dfm_isPrefixOf_self (t : List Char) :
    ("deleted file mode").toList.isPrefixOf
      (("deleted file mode").toList ++ t) = true :=
  ( List.isPrefixOf_iff_prefix).mpr (List.prefix_append _ _)

theorem isPrefixOf_shape {p l : List Char} (h : p.isPrefixOf l = true) :
    ∃ t, l = p ++ t := by
  obtain ⟨t, ht⟩ := ( List.isPrefixOf_iff_prefix).mp h
  exact ⟨t, ht.symm⟩

theorem step_dfm {l : List Char} (s : ParseState)
    (h : ("deleted file mode").toList.isPrefixOf l = true) :
    DiffParser.step s l =
      { s with current_file :=
          s.current_file.map (fun f => { f with is_deleted_file := true }) } := by
  obtain ⟨t, rfl⟩ := isPrefixOf_shape h
  simp only [DiffParser.step, fileHeaderMatch_at_dfm, nfm_at_dfm,
    dfm_isPrefixOf_self, Bool.false_eq_true, if_false, if_true]

theorem fileHeaderMatch_at_renFrom (t : List Char) :
    fileHeaderMatch (("rename from").toList ++ t) = none := rfl

theorem fileHeaderMatch_at_renTo (t : List Char) :
    fileHeaderMatch (("rename to").toList ++ t) = none := rfl

theorem nfm_at_renFrom (t : List Char) :
    ("new file mode").toList.isPrefixOf (("rename from").toList ++ t) =
      false := by
  simp [List.isPrefixOf]

theorem nfm_at_renTo (t : List Char) :
    ("new file mode").toList.isPrefixOf (("rename to").toList ++ t) =
      false := by
  simp [List.isPrefixOf]

theorem dfm_at_renFrom (t : List Char) :
    ("deleted file mode").toList.isPrefixOf (("rename from").toList ++ t) =
      false := by
  simp [List.isPrefixOf]

theorem dfm_at_renTo (t : List Char) :
    ("deleted file mode").toList.isPrefixOf (("rename to").toList ++ t) =
      false := by
  simp [List.isPrefixOf]

theorem renFrom_isPrefixOf_self (t : List Char) :
    ("rename from").toList.isPrefixOf (("rename from").toList ++ t) = true :=
  ( List.isPrefixOf_iff_prefix).mpr (List.prefix_append _ _)

theorem renTo_isPrefixOf_self (t : List Char) :
    ("rename to").toList.isPrefixOf (("rename to").toList ++ t) = true :=
  ( List.isPrefixOf_iff_prefix).mpr (List.prefix_append _ _)

theorem step_rename {l : List Char} (s : ParseState)
    (h : ("rename from").toList.isPrefixOf l = true ∨
         ("rename to").toList.isPrefixOf l = true) :
    DiffParser.step s l =
      { s with current_file :=
          s.current_file.map (fun f => { f with is_renamed := true }) } := by
  rcases h with h | h
  · obtain ⟨t, rfl⟩ := isPrefixOf_shape h
    simp only [DiffParser.step, fileHeaderMatch_at_renFrom, nfm_at_renFrom,
      dfm_at_renFrom, renFrom_isPrefixOf_self, Bool.false_eq_true, if_false,
      true_or, if_true]
  · obtain ⟨t, rfl⟩ := isPrefixOf_shape h
    simp only [DiffParser.step, fileHeaderMatch_at_renTo, nfm_at_renTo,
      dfm_at_renTo, renTo_isPrefixOf_self, Bool.false_eq_true, if_false,
      or_true, if_true]

theorem oldFileMatch_shape {l : List Char} {r : List Char}
    (h : oldFileMatch l = some r) : ∃ t, l = ("--- ").toList ++ t := by
  unfold oldFileMatch at h
  cases hd : dropLit (("--- ").toList) l with
  | none => rw [hd] at h; exact absurd h (by simp)
  | some r1 => exact ⟨r1, dropLit_eq_append hd⟩

theorem newFileMatch_shape {l : List Char} {r : List Char}
    (h : newFileMatch l = some r) : ∃ t, l = ("+++ ").toList ++ t := by
  unfold newFileMatch at h
  cases hd : dropLit (("+++ ").toList) l with
  | none => rw [hd] at h; exact absurd h (by simp)
  | some r1 => exact ⟨r1, dropLit_eq_append hd⟩

theorem fileHeaderMatch_at_old (t : List Char) :
    fileHeaderMatch (("--- ").toList ++ t) = none := rfl

theorem nfm_at_old (t : List Char) :
    ("new file mode").toList.isPrefixOf (("--- ").toList ++ t) = false := by
  simp [List.isPrefixOf]

theorem dfm_at_old (t : List Char) :
    ("deleted file mode").toList.isPrefixOf (("--- ").toList ++ t) = false := by
  simp [List.isPrefixOf]

theorem renFrom_at_old (t : List Char) :
    ("rename from").toList.isPrefixOf (("--- ").toList ++ t) = false := by
  simp [List.isPrefixOf]

theorem renTo_at_old (t : List Char) :
    ("rename to").toList.isPrefixOf (("--- ").toList ++ t) = false := by
  simp [List.isPrefixOf]

theorem step_oldFile_noFile {l : List Char} {r : List Char} (s : ParseState)
    (hom : oldFileMatch l = some r) (hcf : s.current_file = none) :
    DiffParser.step s l = { s with current_file := some { file_path := [] } } := by
  obtain ⟨t, rfl⟩ := oldFileMatch_shape hom
  simp only [DiffParser.step, fileHeaderMatch_at_old, nfm_at_old, dfm_at_old,
    renFrom_at_old, renTo_at_old, Bool.false_eq_true, if_false, or_self,
    hom, hcf]

theorem step_oldFile_file {l : List Char} {r : List Char} {f : FileDiff}
    (s : ParseState) (hom : oldFileMatch l = some r)
    (hcf : s.current_file = some f) :
    DiffParser.step s l = s := by
  obtain ⟨t, rfl⟩ := oldFileMatch_shape hom
  simp only [DiffParser.step, fileHeaderMatch_at_old, nfm_at_old, dfm_at_old,
    renFrom_at_old, renTo_at_old, Bool.false_eq_true, if_false, or_self,
    hom, hcf]

theorem fileHeaderMatch_at_new (t : List Char) :
    fileHeaderMatch (("+++ ").toList ++ t) = none := rfl

theorem oldFileMatch_at_new (t : List Char) :
    oldFileMatch (("+++ ").toList ++ t) = none := rfl

theorem nfm_at_new (t : List Char) :
    ("new file mode").toList.isPrefixOf (("+++ ").toList ++ t) = false := by
  simp [List.isPrefixOf]

theorem dfm_at_new (t : List Char) :
    ("deleted file mode").toList.isPrefixOf (("+++ ").toList ++ t) = false := by
  simp [List.isPrefixOf]

theorem renFrom_at_new (t : List Char) :
    ("rename from").toList.isPrefixOf (("+++ ").toList ++ t) = false := by
  simp [List.isPrefixOf]

theorem renTo_at_new (t : List Char) :
    ("rename to").toList.isPrefixOf (("+++ ").toList ++ t) = false := by
  simp [List.isPrefixOf]

theorem step_newFile_noFile {l : List Char} {p : List Char} (s : ParseState)
    (hnm : newFileMatch l = some p) (hcf : s.current_file = none) :
    DiffParser.step s l = s := by
  obtain ⟨t, rfl⟩ := newFileMatch_shape hnm
  simp only [DiffParser.step, fileHeaderMatch_at_new, oldFileMatch_at_new,
    nfm_at_new, dfm_at_new, renFrom_at_new, renTo_at_new, Bool.false_eq_true,
    if_false, or_self, hnm, hcf]

theorem step_newFile_file {l : List Char} {p : List Char} {f : FileDiff}
    (s : ParseState) (hnm : newFileMatch l = some p)
    (hcf : s.current_file = some f) :
    DiffParser.step s l =
      (if f.file_path = [] ∧ p ≠ ("/dev/null").toList then
        { s with current_file := some { f with file_path := p } }
      else s) := by
  obtain ⟨t, rfl⟩ := newFileMatch_shape hnm
  simp only [DiffParser.step, fileHeaderMatch_at_new, oldFileMatch_at_new,
    nfm_at_new, dfm_at_new, renFrom_at_new, renTo_at_new, Bool.false_eq_true,
    if_false, or_self, hnm, hcf]

theorem step_body_noHunk (s : ParseState) (l : List Char)
    (hfm : fileHeaderMatch l = none)
    (hn : ("new file mode").toList.isPrefixOf l = false)
    (hd : ("deleted file mode").toList.isPrefixOf l = false)
    (hrf : ("rename from").toList.isPrefixOf l = false)
    (hrt : ("rename to").toList.isPrefixOf l = false)
    (hom : oldFileMatch l = none) (hnm : newFileMatch l = none)
    (hhm : hunkHeaderMatch l = none) (hch : s.current_hunk = none) :
    DiffParser.step s l = s := by
  simp only [DiffParser.step, hfm, hn, hd, hrf, hrt, hom, hnm, hhm, hch,
    Bool.false_eq_true, if_false, or_self]

theorem step_body_hunk {h : DiffHunk} (s : ParseState) (l : List Char)
    (hfm : fileHeaderMatch l = none)
    (hn : ("new file mode").toList.isPrefixOf l = false)
    (hd : ("deleted file mode").toList.isPrefixOf l = false)
    (hrf : ("rename from").toList.isPrefixOf l = false)
    (hrt : ("rename to").toList.isPrefixOf l = false)
    (hom : oldFileMatch l = none) (hnm : newFileMatch l = none)
    (hhm : hunkHeaderMatch l = none) (hch : s.current_hunk = some h) :
    DiffParser.step s l =
      (if l.head? = some '+' ∧ ¬ ("+++").toList.isPrefixOf l then
        { s with
          current_hunk := some { h with lines := h.lines ++
            [{ content := l.drop 1, line_type := LineType.addition,
               old_line_number := none,
               new_line_number := some s.new_line }] },
          new_line := s.new_line + 1 }
      else if l.head? = some '-' ∧ ¬ ("---").toList.isPrefixOf l then
        { s with
          current_hunk := some { h with lines := h.lines ++
            [{ content := l.drop 1, line_type := LineType.deletion,
               old_line_number := some s.old_line,
               new_line_number := none }] },
          old_line := s.old_line + 1 }
      else if l.head? = some ' ' ∨ l = [] then
        { s with
          current_hunk := some { h with lines := h.lines ++
            [{ content := if l.head? = some ' ' then l.drop 1 else l,
               line_type := LineType.context,
               old_line_number := some s.old_line,
               new_line_number := some s.new_line }] },
          old_line := s.old_line + 1, new_line := s.new_line + 1 }
      else s) := by
  simp only [DiffParser.step, hfm, hn, hd, hrf, hrt, hom, hnm, hhm, hch,
    Bool.false_eq_true, if_false, or_self]

theorem stateOk_step (s : ParseState) (l : List Char) (hs : stateOk s) :
    stateOk (DiffParser.step s l) := by
  obtain ⟨inv1, inv2, inv3⟩ := hs
  cases hfm : fileHeaderMatch l with
  | some pr =>
    obtain ⟨o, p⟩ := pr
    rw [step_fileHeader s hfm]
    refine ⟨?_, ?_, ?_⟩
    · intro f hf
      rcases List.mem_append.mp hf with hmem | hmem
      · exact inv1 f hmem
      · rw [Option.mem_toList, Option.mem_def] at hmem
        exact inv2 f hmem
    · intro f hf
      simp only [Option.some.injEq] at hf
      subst hf
      intro h hh
      simp at hh
    · intro h hh
      simp at hh
  | none =>
    by_cases hn : ("new file mode").toList.isPrefixOf l = true
    · rw [step_newFileMode s hn]
      exact stateOk_updateFileMap s _ (fun f => rfl) ⟨inv1, inv2, inv3⟩
    · by_cases hdm : ("deleted file mode").toList.isPrefixOf l = true
      · rw [step_dfm s hdm]
        exact stateOk_updateFileMap s _ (fun f => rfl) ⟨inv1, inv2, inv3⟩
      · by_cases hr : (("rename from").toList.isPrefixOf l = true ∨
            ("rename to").toList.isPrefixOf l = true)
        · rw [step_rename s hr]
          exact stateOk_updateFileMap s _ (fun f => rfl) ⟨inv1, inv2, inv3⟩
        · cases hom : oldFileMatch l with
          | some r =>
            cases hcf : s.current_file with
            | none =>
              rw [step_oldFile_noFile s hom hcf]
              refine ⟨inv1, ?_, inv3⟩
              intro f hf
              simp only [Option.some.injEq] at hf
              subst hf
              intro h hh
              simp at hh
            | some f =>
              rw [step_oldFile_file s hom hcf]
              exact ⟨inv1, inv2, inv3⟩
          | none =>
            cases hnm : newFileMatch l with
            | some p =>
              cases hcf : s.current_file with
              | none =>
                rw [step_newFile_noFile s hnm hcf]
                exact ⟨inv1, inv2, inv3⟩
              | some f =>
                rw [step_newFile_file s hnm hcf]
                split
                · refine ⟨inv1, ?_, inv3⟩
                  intro f' hf'
                  simp only [Option.some.injEq] at hf'
                  subst hf'
                  intro h hh
                  exact inv2 f hcf h hh
                · exact ⟨inv1, inv2, inv3⟩
            | none =>
              cases hhm : hunkHeaderMatch l with
              | some r5 =>
                obtain ⟨os, oc, ns, nc, hdr⟩ := r5
                rw [step_hunkHeader s hhm]
                refine ⟨inv1, ?_, ?_⟩
                · intro f hf
                  cases hch : s.current_hunk with
                  | some h0 =>
                    cases hcf : s.current_file with
                    | some f0 =>
                      rw [hch, hcf] at hf
                      simp only [Option.some.injEq] at hf
                      subst hf
                      intro h hh
                      rcases List.mem_append.mp hh with hmem | hmem
                      · exact inv2 f0 hcf h hmem
                      · rw [List.mem_singleton] at hmem
                        rw [hmem]
                        exact (inv3 h0 hch).1
                    | none =>
                      rw [hch, hcf] at hf
                      simp at hf
                  | none =>
                    rw [hch] at hf
                    exact inv2 f hf
                · intro h hh
                  simp only [Option.some.injEq] at hh
                  subst hh
                  constructor
                  · unfold hunkOk hunkNewNumbers
                    rfl
                  · rfl
              | none =>
                have hn' : ("new file mode").toList.isPrefixOf l = false := by
                  cases hx : ("new file mode").toList.isPrefixOf l with
                  | false => rfl
                  | true => exact absurd hx hn
                have hd' : ("deleted file mode").toList.isPrefixOf l = false := by
                  cases hx : ("deleted file mode").toList.isPrefixOf l with
                  | false => rfl
                  | true => exact absurd hx hdm
                have hrf' : ("rename from").toList.isPrefixOf l = false := by
                  cases hx : ("rename from").toList.isPrefixOf l with
                  | false => rfl
                  | true => exact absurd hx (not_or.mp hr).1
                have hrt' : ("rename to").toList.isPrefixOf l = false := by
                  cases hx : ("rename to").toList.isPrefixOf l with
                  | false => rfl
                  | true => exact absurd hx (not_or.mp hr).2
                cases hch : s.current_hunk with
                | none =>
                  rw [step_body_noHunk s l hfm hn' hd' hrf' hrt' hom hnm hhm hch]
                  exact ⟨inv1, inv2, inv3⟩
                | some h0 =>
                  rw [step_body_hunk s l hfm hn' hd' hrf' hrt' hom hnm hhm hch]
                  split_ifs with c1 c2 c3 c4
                  · refine ⟨inv1, inv2, ?_⟩
                    intro h' hh'
                    simp only [Option.some.injEq] at hh'
                    subst hh'
                    obtain ⟨hOk, hlen⟩ := inv3 h0 hch
                    exact hunkOk_snocNew h0 s.new_line _ hOk hlen
                      (hunkNewNumbers_snoc_addition h0 _ s.new_line)
                  · refine ⟨inv1, inv2, ?_⟩
                    intro h' hh'
                    simp only [Option.some.injEq] at hh'
                    subst hh'
                    obtain ⟨hOk, hlen⟩ := inv3 h0 hch
                    constructor
                    · unfold hunkOk
                      rw [hunkNewNumbers_snoc_deletion]
                      exact hOk
                    · rw [hunkNewNumbers_snoc_deletion]
                      exact hlen
                  · refine ⟨inv1, inv2, ?_⟩
                    intro h' hh'
                    simp only [Option.some.injEq] at hh'
                    subst hh'
                    obtain ⟨hOk, hlen⟩ := inv3 h0 hch
                    exact hunkOk_snocNew h0 s.new_line _ hOk hlen
                      (hunkNewNumbers_snoc_context h0 _ s.old_line s.new_line)
                  · refine ⟨inv1, inv2, ?_⟩
                    intro h' hh'
                    simp only [Option.some.injEq] at hh'
                    subst hh'
                    obtain ⟨hOk, hlen⟩ := inv3 h0 hch
                    exact hunkOk_snocNew h0 s.new_line _ hOk hlen
                      (hunkNewNumbers_snoc_context h0 _ s.old_line s.new_line)
                  · exact ⟨inv1, inv2, inv3⟩

theorem stateOk_foldl (ls : List (List Char)) (s : ParseState)
    (hs : stateOk s) : stateOk (List.foldl DiffParser.step s ls) := by
  induction ls generalizing s with
  | nil => exact hs
  | cons l ls ih => exact ih (DiffParser.step s l) (stateOk_step s l hs)

theorem stateOk_initState : stateOk DiffParser.initState := by
  refine ⟨?_, ?_, ?_⟩ <;> simp [DiffParser.initState]

theorem stateOk_finalize (s : ParseState) (hs : stateOk s) :
    ∀ f ∈ DiffParser.finalize s, fileOk f := by
  obtain ⟨inv1, inv2, inv3⟩ := hs
  unfold DiffParser.finalize
  cases hcf : s.current_file with
  | none => exact inv1
  | some f =>
    cases hch : s.current_hunk with
    | none =>
      intro f' hf'
      rcases List.mem_append.mp hf' with hmem | hmem
      · exact inv1 f' hmem
      · rw [List.mem_singleton] at hmem
        rw [hmem]
        exact inv2 f hcf
    | some h =>
      intro f' hf'
      rcases List.mem_append.mp hf' with hmem | hmem
      · exact inv1 f' hmem
      · rw [List.mem_singleton] at hmem
        rw [hmem]
        intro h' hh'
        rcases List.mem_append.mp hh' with hm2 | hm2
        · exact inv2 f hcf h' hm2
        · rw [List.mem_singleton] at hm2
          rw [hm2]
          exact (inv3 h hch).1

theorem parse_hunkOk {diff : List Char} {fd : FileDiff} {hk : DiffHunk}
    (hfd : fd ∈ DiffParser.parse diff) (hhk : hk ∈ fd.hunks) : hunkOk hk := by
  have hs : stateOk ((splitLines diff).foldl DiffParser.step
      DiffParser.initState) :=
    stateOk_foldl (splitLines diff) DiffParser.initState stateOk_initState
  exact stateOk_finalize _ hs fd hfd hk hhk

theorem noDevNull_updateFileMap (s : ParseState) (g : FileDiff → FileDiff)
    (hg : ∀ f, (g f).file_path = f.file_path) (hs : noDevNullPath s) :
    noDevNullPath { s with current_file := s.current_file.map g } := by
  obtain ⟨inv1, inv2⟩ := hs
  refine ⟨inv1, ?_⟩
  intro f hf
  simp only [Option.map_eq_some'] at hf
  obtain ⟨f0, hf0, rfl⟩ := hf
  rw [hg f0]
  exact inv2 f0 hf0

theorem noDevNull_step (s : ParseState) (l : List Char)
    (hl : ∀ o p, fileHeaderMatch l = some (o, p) → p ≠ ("/dev/null").toList)
    (hs : noDevNullPath s) : noDevNullPath (DiffParser.step s l) := by
  obtain ⟨inv1, inv2⟩ := hs
  cases hfm : fileHeaderMatch l with
  | some pr =>
    obtain ⟨o, p⟩ := pr
    rw [step_fileHeader s hfm]
    refine ⟨?_, ?_⟩
    · intro f hf
      rcases List.mem_append.mp hf with hmem | hmem
      · exact inv1 f hmem
      · rw [Option.mem_toList, Option.mem_def] at hmem
        exact inv2 f hmem
    · intro f hf
      simp only [Option.some.injEq] at hf
      subst hf
      exact hl o p hfm
  | none =>
    by_cases hn : ("new file mode").toList.isPrefixOf l = true
    · rw [step_newFileMode s hn]
      exact noDevNull_updateFileMap s _ (fun f => rfl) ⟨inv1, inv2⟩
    · by_cases hdm : ("deleted file mode").toList.isPrefixOf l = true
      · rw [step_dfm s hdm]
        exact noDevNull_updateFileMap s _ (fun f => rfl) ⟨inv1, inv2⟩
      · by_cases hr : (("rename from").toList.isPrefixOf l = true ∨
            ("rename to").toList.isPrefixOf l = true)
        · rw [step_rename s hr]
          exact noDevNull_updateFileMap s _ (fun f => rfl) ⟨inv1, inv2⟩
        · cases hom : oldFileMatch l with
          | some r =>
            cases hcf : s.current_file with
            | none =>
              rw [step_oldFile_noFile s hom hcf]
              refine ⟨inv1, ?_⟩
              intro f hf
              simp only [Option.some.injEq] at hf
              subst hf
              simp
            | some f =>
              rw [step_oldFile_file s hom hcf]
              exact ⟨inv1, inv2⟩
          | none =>
            cases hnm : newFileMatch l with
            | some p =>
              cases hcf : s.current_file with
              | none =>
                rw [step_newFile_noFile s hnm hcf]
                exact ⟨inv1, inv2⟩
              | some f =>
                rw [step_newFile_file s hnm hcf]
                split
                · rename_i hcond
                  refine ⟨inv1, ?_⟩
                  intro f' hf'
                  simp only [Option.some.injEq] at hf'
                  subst hf'
                  exact hcond.2
                · exact ⟨inv1, inv2⟩
            | none =>
              cases hhm : hunkHeaderMatch l with
              | some r5 =>
                obtain ⟨os, oc, ns, nc, hdr⟩ := r5
                rw [step_hunkHeader s hhm]
                refine ⟨inv1, ?_⟩
                intro f hf
                cases hch : s.current_hunk with
                | some h0 =>
                  cases hcf : s.current_file with
                  | some f0 =>
                    rw [hch, hcf] at hf
                    simp only [Option.some.injEq] at hf
                    subst hf
                    exact inv2 f0 hcf
                  | none =>
                    rw [hch, hcf] at hf
                    simp at hf
                | none =>
                  rw [hch] at hf
                  exact inv2 f hf
              | none =>
                have hn' : ("new file mode").toList.isPrefixOf l = false := by
                  cases hx : ("new file mode").toList.isPrefixOf l with
                  | false => rfl
                  | true => exact absurd hx hn
                have hd' : ("deleted file mode").toList.isPrefixOf l = false := by
                  cases hx : ("deleted file mode").toList.isPrefixOf l with
                  | false => rfl
                  | true => exact absurd hx hdm
                have hrf' : ("rename from").toList.isPrefixOf l = false := by
                  cases hx : ("rename from").toList.isPrefixOf l with
                  | false => rfl
                  | true => exact absurd hx (not_or.mp hr).1
                have hrt' : ("rename to").toList.isPrefixOf l = false := by
                  cases hx : ("rename to").toList.isPrefixOf l with
                  | false => rfl
                  | true => exact absurd hx (not_or.mp hr).2
                cases hch : s.current_hunk with
                | none =>
                  rw [step_body_noHunk s l hfm hn' hd' hrf' hrt' hom hnm hhm hch]
                  exact ⟨inv1, inv2⟩
                | some h0 =>
                  rw [step_body_hunk s l hfm hn' hd' hrf' hrt' hom hnm hhm hch]
                  split_ifs <;> exact ⟨inv1, inv2⟩

theorem noDevNull_parse (diff : List Char)
    (hdr : ∀ l ∈ splitLines diff, ∀ o p,
      fileHeaderMatch l = some (o, p) → p ≠ ("/dev/null").toList) :
    ∀ fd ∈ DiffParser.parse diff, fd.file_path ≠ ("/dev/null").toList := by
  have hfold : ∀ (ls : List (List Char)) (s : ParseState),
      (∀ l ∈ ls, ∀ o p, fileHeaderMatch l = some (o, p) →
        p ≠ ("/dev/null").toList) →
      noDevNullPath s → noDevNullPath (List.foldl DiffParser.step s ls) := by
    intro ls
    induction ls with
    | nil => intro s _ hs; exact hs
    | cons l ls ih =>
      intro s hls hs
      exact ih (DiffParser.step s l) (fun x hx => hls x (by simp [hx]))
        (noDevNull_step s l (hls l (by simp)) hs)
  have hs : noDevNullPath ((splitLines diff).foldl DiffParser.step
      DiffParser.initState) := by
    refine hfold _ _ hdr ⟨?_, ?_⟩ <;> simp [DiffParser.initState]
  obtain ⟨inv1, inv2⟩ := hs
  intro fd hfd
  unfold DiffParser.parse at hfd
  unfold DiffParser.finalize at hfd
  rcases hcf : (List.foldl DiffParser.step DiffParser.initState
      (splitLines diff)).current_file with _ | f
  · rw [hcf] at hfd
    exact inv1 fd hfd
  · rw [hcf] at hfd
    rcases hch : (List.foldl DiffParser.step DiffParser.initState
      (splitLines diff)).current_hunk with _ | h
    · rw [hch] at hfd
      rcases List.mem_append.mp hfd with hmem | hmem
      · exact inv1 fd hmem
      · rw [List.mem_singleton] at hmem
        rw [hmem]
        exact inv2 f hcf
    · rw [hch] at hfd
      rcases List.mem_append.mp hfd with hmem | hmem
      · exact inv1 fd hmem
      · rw [List.mem_singleton] at hmem
        rw [hmem]
        exact inv2 f hcf

theorem changed_new_lines_eq (h : DiffHunk) :
    h.changed_new_lines =
      (specAdditionNewLineNumbers h).filter (fun n => n != 0) := by
  unfold DiffHunk.changed_new_lines specAdditionNewLineNumbers
  induction h.additions with
  | nil => rfl
  | cons a as ih =>
    simp only [List.filterMap_cons]
    cases hn : a.new_line_number with
    | none => simpa using ih
    | some n =>
      by_cases h0 : n = 0
      · subst h0
        simpa using ih
      · simp [h0, ih]

/-- Claim C1 (code bug): on a two-file diff whose first file still has an
open hunk when the second `diff --git` header arrives, `parse` appends the
first FileDiff WITHOUT that hunk — the open hunk is discarded (`current_hunk`
is reset to `None` without being appended), so the first file comes out with
an empty hunk list while the second file keeps its final hunk. -/
theorem parse_diff_git_drops_open_hunk :
    (DiffParser.parse twoFileOpenHunkInput).map
      (fun fd => (fd.file_path, fd.hunks.length)) =
    [(("f1").toList, 0), (("f2").toList, 1)] := by decide

/-- Claim C2: `parse` is a total function (the embedding itself is a total
Lean function, mirroring that the source raises no exception on any input
string), and on any input none of whose lines matches a recognized header
form — including the empty string — it returns the empty list. -/
theorem parse_no_recognized_headers_eq_nil (diff : List Char)
    (h : ∀ l ∈ splitLines diff, isHeaderLine l = false) :
    DiffParser.parse diff = [] := by
  unfold DiffParser.parse
  rw [foldl_inert (splitLines diff) DiffParser.initState h rfl rfl]
  rfl

/-- Witness for C2 at the empty input string. -/
theorem parse_no_recognized_headers_eq_nil_witness :
    DiffParser.parse [] = [] :=
  parse_no_recognized_headers_eq_nil [] (by decide)

/-- Claim C3: parsing the concrete scenario-A input yields one FileDiff with
path `example.py`, one hunk `(1, 5, 1, 7)`, two additions (the second with
content `    return True` and new line number 3), and one deletion (content
`    print("Hello")`, old line number 2). -/
theorem parse_scenarioA_expected :
    (DiffParser.parse scenarioA).length = 1 ∧
    ((DiffParser.parse scenarioA).headD dummyFile).file_path =
      ("example.py").toList ∧
    ((DiffParser.parse scenarioA).headD dummyFile).hunks.length = 1 ∧
    ((((DiffParser.parse scenarioA).headD dummyFile).hunks.headD
      dummyHunk).old_start = 1 ∧
     (((DiffParser.parse scenarioA).headD dummyFile).hunks.headD
      dummyHunk).old_count = 5 ∧
     (((DiffParser.parse scenarioA).headD dummyFile).hunks.headD
      dummyHunk).new_start = 1 ∧
     (((DiffParser.parse scenarioA).headD dummyFile).hunks.headD
      dummyHunk).new_count = 7) ∧
    ((((DiffParser.parse scenarioA).headD dummyFile).hunks.headD
      dummyHunk).additions.length = 2 ∧
     ((((DiffParser.parse scenarioA).headD dummyFile).hunks.headD
      dummyHunk).additions.getD 1 dummyLine).content =
        ("    return True").toList ∧
     ((((DiffParser.parse scenarioA).headD dummyFile).hunks.headD
      dummyHunk).additions.getD 1 dummyLine).new_line_number = some 3) ∧
    ((((DiffParser.parse scenarioA).headD dummyFile).hunks.headD
      dummyHunk).deletions.length = 1 ∧
     ((((DiffParser.parse scenarioA).headD dummyFile).hunks.headD
      dummyHunk).deletions.headD dummyLine).content =
        ("    print(\"Hello\")").toList ∧
     ((((DiffParser.parse scenarioA).headD dummyFile).hunks.headD
      dummyHunk).deletions.headD dummyLine).old_line_number = some 2) := by
  decide

/-- Claim C4: in every hunk produced by `parse`, the new-file line numbers
stamped on context and addition lines, in line order, are strictly
increasing, and the first of them equals the hunk's `new_start`. -/
theorem parse_hunk_new_numbers_strictly_increasing (diff : List Char)
    (fd : FileDiff) (hk : DiffHunk)
    (hfd : fd ∈ DiffParser.parse diff) (hhk : hk ∈ fd.hunks) :
    List.Pairwise (fun a b => a < b) (hunkNewNumbers hk) ∧
    ∀ x, (hunkNewNumbers hk).head? = some x → x = hk.new_start := by
  have hok := parse_hunkOk hfd hhk
  constructor
  · rw [hok]
    exact pairwise_consecFrom _ _
  · intro x hx
    rw [hok] at hx
    exact head_consecFrom hx

/-- Witness for C4 at the scenario-A input. -/
theorem parse_hunk_new_numbers_strictly_increasing_witness :
    List.Pairwise (fun a b => a < b)
      (hunkNewNumbers (((DiffParser.parse scenarioA).headD
        dummyFile).hunks.headD dummyHunk)) ∧
    ∀ x, (hunkNewNumbers (((DiffParser.parse scenarioA).headD
        dummyFile).hunks.headD dummyHunk)).head? = some x →
      x = (((DiffParser.parse scenarioA).headD dummyFile).hunks.headD
        dummyHunk).new_start :=
  parse_hunk_new_numbers_strictly_increasing scenarioA
    ((DiffParser.parse scenarioA).headD dummyFile)
    (((DiffParser.parse scenarioA).headD dummyFile).hunks.headD dummyHunk)
    (by decide) (by decide)

/-- Claim C8 (counterexample): on a hunk declaring `new_start = 0` the first
addition line is stamped `new_line_number = 0`, which Python truthiness
drops from `changed_new_lines`, so `changed_new_lines` is NOT the list of
all additions' new line numbers. -/
theorem changed_new_lines_drops_zero_line_number :
    (((DiffParser.parse zeroNewStartInput).headD dummyFile).hunks.headD
      dummyHunk).changed_new_lines = [] ∧
    specAdditionNewLineNumbers
      (((DiffParser.parse zeroNewStartInput).headD dummyFile).hunks.headD
        dummyHunk) = [0] ∧
    (((DiffParser.parse zeroNewStartInput).headD dummyFile).hunks.headD
      dummyHunk).changed_new_lines ≠
    specAdditionNewLineNumbers
      (((DiffParser.parse zeroNewStartInput).headD dummyFile).hunks.headD
        dummyHunk) := by decide

/-- Claim C8 (amended): for every hunk produced by `parse`,
`changed_new_lines` equals the new-file line numbers of its addition lines
in line order with any `0` value omitted (Python truthiness also filters
out the integer 0). -/
theorem parse_changed_new_lines_are_nonzero_addition_numbers
    (diff : List Char) (fd : FileDiff) (hk : DiffHunk)
    (hfd : fd ∈ DiffParser.parse diff) (hhk : hk ∈ fd.hunks) :
    hk.changed_new_lines =
      (specAdditionNewLineNumbers hk).filter (fun n => n != 0) :=
  changed_new_lines_eq hk

/-- Witness for amended C8 at the scenario-A input. -/
theorem parse_changed_new_lines_are_nonzero_addition_numbers_witness :
    (((DiffParser.parse scenarioA).headD dummyFile).hunks.headD
      dummyHunk).changed_new_lines =
    (specAdditionNewLineNumbers (((DiffParser.parse scenarioA).headD
      dummyFile).hunks.headD dummyHunk)).filter (fun n => n != 0) :=
  parse_changed_new_lines_are_nonzero_addition_numbers scenarioA
    ((DiffParser.parse scenarioA).headD dummyFile)
    (((DiffParser.parse scenarioA).headD dummyFile).hunks.headD dummyHunk)
    (by decide) (by decide)

/-- Claim C7 (counterexample): in a bare deletion patch (`---` names
`gone.py`, `+++` reads `/dev/null`), the resulting FileDiff's path does NOT
come from the old-file marker — it stays the empty string the `---` branch
opened it with. -/
theorem parse_bare_deletion_path_not_from_old_marker :
    (DiffParser.parse bareDeletionInput).length = 1 ∧
    ((DiffParser.parse bareDeletionInput).headD dummyFile).file_path = [] ∧
    ((DiffParser.parse bareDeletionInput).headD dummyFile).file_path ≠
      ("gone.py").toList := by decide

/-- Claim C7 (amended): for every input whose `diff --git` headers never
capture `/dev/null` as the new path, no FileDiff of the result has
file_path `/dev/null` — in particular a `+++` marker reading `/dev/null`
never sets it; and in the deleted-file case the path is NOT taken from the
`---` marker: a bare deletion patch keeps the empty path. -/
theorem parse_dev_null_never_becomes_path (diff : List Char)
    (hdr : ∀ l ∈ splitLines diff, ∀ o p,
      fileHeaderMatch l = some (o, p) → p ≠ ("/dev/null").toList) :
    (∀ fd ∈ DiffParser.parse diff, fd.file_path ≠ ("/dev/null").toList) ∧
    ((DiffParser.parse bareDeletionInput).headD dummyFile).file_path = [] :=
  ⟨noDevNull_parse diff hdr, by decide⟩

/-- Witness for amended C7 at the bare deletion input. -/
theorem parse_dev_null_never_becomes_path_witness :
    (∀ fd ∈ DiffParser.parse bareDeletionInput,
      fd.file_path ≠ ("/dev/null").toList) ∧
    ((DiffParser.parse bareDeletionInput).headD dummyFile).file_path = [] :=
  parse_dev_null_never_becomes_path bareDeletionInput (by
    intro l hl o p hp
    have hnone : ∀ l ∈ splitLines bareDeletionInput,
        (fileHeaderMatch l).isSome = false := by decide
    have h2 := hnone l hl
    rw [hp] at h2
    simp at h2)

/-- Claim C6 (counterexample): a `new file mode` line arriving while no
FileDiff is open is ignored — no FileDiff is created on demand and the flag
is never recorded: the single FileDiff of the result (opened later by the
`---` marker) has `is_new_file = false`. -/
theorem parse_new_file_mode_without_open_file_ignored :
    (DiffParser.parse newFileModeFirstInput).map
      (fun fd => (fd.file_path, fd.is_new_file)) =
    [(("f").toList, false)] := by decide

/-- Claim C9: whenever `parse` meets a hunk-header line whose optional
counts are (partly) omitted, the DiffHunk it opens uses 1 for each omitted
count while the explicit starts are taken as written; concretely, scenario
E's header `@@ -1 +1 @@` yields counts `(1, 1)` and starts `(1, 1)`. -/
theorem parse_omitted_hunk_counts_default_to_one (s : ParseState)
    (l : List Char) (os ns : Nat) (oc nc : Option Nat) (hdr : List Char)
    (hm : hunkHeaderMatch l = some (os, oc, ns, nc, hdr))
    (homit : oc = none ∨ nc = none) :
    (DiffParser.step s l).current_hunk = some
      { old_start := os, old_count := oc.getD 1,
        new_start := ns, new_count := nc.getD 1,
        lines := [], header := pyStrip hdr } ∧
    ((((DiffParser.parse scenarioE).headD dummyFile).hunks.headD
        dummyHunk).old_start = 1 ∧
     (((DiffParser.parse scenarioE).headD dummyFile).hunks.headD
        dummyHunk).old_count = 1 ∧
     (((DiffParser.parse scenarioE).headD dummyFile).hunks.headD
        dummyHunk).new_start = 1 ∧
     (((DiffParser.parse scenarioE).headD dummyFile).hunks.headD
        dummyHunk).new_count = 1) := by
  refine ⟨?_, by decide⟩
  rw [step_hunkHeader s hm]

/-- Witness for C9 at the header `@@ -1 +1 @@` (both counts omitted). -/
theorem parse_omitted_hunk_counts_default_to_one_witness :
    (DiffParser.step DiffParser.initState (("@@ -1 +1 @@").toList)).current_hunk =
      some { old_start := 1, old_count := (none : Option Nat).getD 1,
             new_start := 1, new_count := (none : Option Nat).getD 1,
             lines := [], header := pyStrip [] } ∧
    ((((DiffParser.parse scenarioE).headD dummyFile).hunks.headD
        dummyHunk).old_start = 1 ∧
     (((DiffParser.parse scenarioE).headD dummyFile).hunks.headD
        dummyHunk).old_count = 1 ∧
     (((DiffParser.parse scenarioE).headD dummyFile).hunks.headD
        dummyHunk).new_start = 1 ∧
     (((DiffParser.parse scenarioE).headD dummyFile).hunks.headD
        dummyHunk).new_count = 1) :=
  parse_omitted_hunk_counts_default_to_one DiffParser.initState
    (("@@ -1 +1 @@").toList) 1 1 none none [] (by decide) (Or.inl rfl)

/-- Claim C10 (counterexample): the claim fails when a hunk is open but no
FileDiff is: for `@@ -1 +1 @@\n`, which ends in a newline with a still-open
hunk, adding one more newline leaves the (empty) parse result unchanged. -/
theorem parse_trailing_newline_headerless_unchanged :
    headerlessHunkInput.getLast? = some '\n' ∧
    ((splitLines headerlessHunkInput).foldl DiffParser.step
      DiffParser.initState).current_hunk ≠ none ∧
    DiffParser.parse (headerlessHunkInput ++ ['\n']) =
      DiffParser.parse headerlessHunkInput := by decide

/-- Claim C10 (amended): for every newline-terminated input at whose end a
hunk AND a FileDiff are still open, appending one more newline makes the
final empty split piece be recorded as one extra empty-content context line
(stamped with both cursors) on that hunk, so `parse text` and
`parse (text ++ "\n")` are not structurally equal. -/
theorem parse_trailing_newline_appends_empty_context (t : List Char)
    (s : ParseState) (f : FileDiff) (h : DiffHunk)
    (hnl : t.getLast? = some '\n')
    (hs : (splitLines t).foldl DiffParser.step DiffParser.initState = s)
    (hh : s.current_hunk = some h) (hf : s.current_file = some f) :
    DiffParser.parse (t ++ ['\n']) =
      s.file_diffs ++ [{ f with hunks := f.hunks ++
        [{ h with lines := h.lines ++
          [{ content := [], line_type := LineType.context,
             old_line_number := some s.old_line,
             new_line_number := some s.new_line }] }] }] ∧
    DiffParser.parse (t ++ ['\n']) ≠ DiffParser.parse t := by
  have hparse1 : DiffParser.parse (t ++ ['\n']) =
      DiffParser.finalize (DiffParser.step s []) := by
    unfold DiffParser.parse
    rw [splitLines_append_newline, List.foldl_append, hs]
    rfl
  have hstep := step_nil_openHunk s hh
  have hfin1 : DiffParser.finalize (DiffParser.step s []) =
      s.file_diffs ++ [{ f with hunks := f.hunks ++
        [{ h with lines := h.lines ++
          [{ content := [], line_type := LineType.context,
             old_line_number := some s.old_line,
             new_line_number := some s.new_line }] }] }] := by
    rw [hstep]
    unfold DiffParser.finalize
    rw [hf]
  have hparse2 : DiffParser.parse t =
      s.file_diffs ++ [{ f with hunks := f.hunks ++ [h] }] := by
    unfold DiffParser.parse
    rw [hs]
    unfold DiffParser.finalize
    rw [hf, hh]
  refine ⟨by rw [hparse1, hfin1], ?_⟩
  rw [hparse1, hfin1, hparse2]
  intro heq
  have h1 := List.append_cancel_left heq
  simp only [List.cons.injEq, and_true] at h1
  have h2 : f.hunks ++ [{ h with lines := h.lines ++
      [{ content := [], line_type := LineType.context,
         old_line_number := some s.old_line,
         new_line_number := some s.new_line }] }] = f.hunks ++ [h] :=
    congrArg FileDiff.hunks h1
  have h3 := List.append_cancel_left h2
  simp only [List.cons.injEq, and_true] at h3
  have h4 := congrArg (fun hk => hk.lines.length) h3
  simp at h4

/-- Witness for amended C10 at a newline-terminated single-file diff with an
open hunk. -/
theorem parse_trailing_newline_appends_empty_context_witness :
    DiffParser.parse (openHunkNewlineInput ++ ['\n']) =
      ([] : List FileDiff) ++
      [{ file_path := ['f'], old_path := some ['f'],
         hunks := ([] : List DiffHunk) ++
          [{ old_start := 1, old_count := 1, new_start := 1, new_count := 1,
             lines := [{ content := ['x'], line_type := LineType.addition,
                         old_line_number := none, new_line_number := some 1 },
                       { content := [], line_type := LineType.context,
                         old_line_number := some 1,
                         new_line_number := some 2 }] ++
              [{ content := [], line_type := LineType.context,
                 old_line_number := some 2, new_line_number := some 3 }],
             header := [] }],
         is_new_file := false, is_deleted_file := false,
         is_renamed := false }] ∧
    DiffParser.parse (openHunkNewlineInput ++ ['\n']) ≠
      DiffParser.parse openHunkNewlineInput :=
  parse_trailing_newline_appends_empty_context openHunkNewlineInput
    { file_diffs := [],
      current_file := some { file_path := ['f'], old_path := some ['f'] },
      current_hunk := some
        { old_start := 1, old_count := 1, new_start := 1, new_count := 1,
          lines := [{ content := ['x'], line_type := LineType.addition,
                      old_line_number := none, new_line_number := some 1 },
                    { content := [], line_type := LineType.context,
                      old_line_number := some 1, new_line_number := some 2 }],
          header := [] },
      old_line := 2, new_line := 3 }
    { file_path := ['f'], old_path := some ['f'] }
    { old_start := 1, old_count := 1, new_start := 1, new_count := 1,
      lines := [{ content := ['x'], line_type := LineType.addition,
                  old_line_number := none, new_line_number := some 1 },
                { content := [], line_type := LineType.context,
                  old_line_number := some 1, new_line_number := some 2 }],
      header := [] }
    (by decide) (by decide) rfl rfl

/-- Claim C5: an input whose line split is `pre ++ [hdr1] ++ mid ++ [hdr2] ++
post`, where `hdr1`/`hdr2` are the only `diff --git` headers (capturing
nonempty paths F1 and F2) and `pre` opens no file, parses to exactly two
FileDiffs whose paths are F1 then F2 — textual file order is preserved. -/
theorem parse_preserves_file_order (diff : List Char)
    (pre mid post : List (List Char)) (h1 h2 o1 o2 F1 F2 : List Char)
    (hsplit : splitLines diff = pre ++ h1 :: (mid ++ h2 :: post))
    (hm1 : fileHeaderMatch h1 = some (o1, F1))
    (hm2 : fileHeaderMatch h2 = some (o2, F2))
    (hF1 : F1 ≠ []) (hF2 : F2 ≠ [])
    (hpre : ∀ l ∈ pre, fileHeaderMatch l = none ∧ oldFileMatch l = none)
    (hmid : ∀ l ∈ mid, fileHeaderMatch l = none)
    (hpost : ∀ l ∈ post, fileHeaderMatch l = none) :
    (DiffParser.parse diff).length = 2 ∧
    ((DiffParser.parse diff).headD dummyFile).file_path = F1 ∧
    ((DiffParser.parse diff).getD 1 dummyFile).file_path = F2 := by
  obtain ⟨hcf1, hfd1⟩ := foldl_noFile pre DiffParser.initState rfl hpre
  have hcf2 : (DiffParser.step (List.foldl DiffParser.step
      DiffParser.initState pre) h1).current_file =
      some { file_path := F1, old_path := some o1 } := by
    rw [step_fileHeader _ hm1]
  have hfd2 : (DiffParser.step (List.foldl DiffParser.step
      DiffParser.initState pre) h1).file_diffs = [] := by
    rw [step_fileHeader _ hm1]
    show (List.foldl DiffParser.step DiffParser.initState pre).file_diffs ++
      (List.foldl DiffParser.step DiffParser.initState
        pre).current_file.toList = []
    rw [hcf1, hfd1]
    rfl
  obtain ⟨f1', hXcf, hXfd, hXpath, hXflag⟩ :=
    foldl_keepFile mid _ { file_path := F1, old_path := some o1 } hcf2
      hF1 hmid
  have hcf3 : (DiffParser.step (List.foldl DiffParser.step
      (DiffParser.step (List.foldl DiffParser.step DiffParser.initState pre)
        h1) mid) h2).current_file =
      some { file_path := F2, old_path := some o2 } := by
    rw [step_fileHeader _ hm2]
  have hfd3 : (DiffParser.step (List.foldl DiffParser.step
      (DiffParser.step (List.foldl DiffParser.step DiffParser.initState pre)
        h1) mid) h2).file_diffs = [f1'] := by
    rw [step_fileHeader _ hm2]
    show (List.foldl DiffParser.step _ mid).file_diffs ++
      (List.foldl DiffParser.step _ mid).current_file.toList = [f1']
    rw [hXcf, hXfd, hfd2]
    rfl
  obtain ⟨f2', hYcf, hYfd, hYpath, hYflag⟩ :=
    foldl_keepFile post _ { file_path := F2, old_path := some o2 } hcf3
      hF2 hpost
  obtain ⟨f2'', hfin, hfinpath, hfinflag⟩ := finalize_of_file _ hYcf
  have hres : DiffParser.parse diff = [f1', f2''] := by
    unfold DiffParser.parse
    rw [hsplit, List.foldl_append, List.foldl_cons, List.foldl_append,
      List.foldl_cons, hfin, hYfd, hfd3]
    rfl
  rw [hres]
  refine ⟨rfl, hXpath, ?_⟩
  rw [List.getD, List.get?]
  show f2''.file_path = F2
  rw [hfinpath, hYpath]

/-- Witness for C5 at the concrete two-file input. -/
theorem parse_preserves_file_order_witness :
    (DiffParser.parse twoFileOpenHunkInput).length = 2 ∧
    ((DiffParser.parse twoFileOpenHunkInput).headD dummyFile).file_path =
      ("f1").toList ∧
    ((DiffParser.parse twoFileOpenHunkInput).getD 1 dummyFile).file_path =
      ("f2").toList :=
  parse_preserves_file_order twoFileOpenHunkInput []
    [("@@ -1 +1 @@").toList, ("+x").toList]
    [("@@ -1 +1 @@").toList, ("+y").toList]
    (("diff --git a/f1 b/f1").toList) (("diff --git a/f2 b/f2").toList)
    (("f1").toList) (("f2").toList) (("f1").toList) (("f2").toList)
    (by decide) (by decide) (by decide) (by decide) (by decide)
    (by decide) (by decide) (by decide)

/-- Claim C6 (amended): a `new file mode` line sets `is_new_file` on the
currently open FileDiff, and on exactly the FileDiff whose header block
contains it; but when no FileDiff is open the line has NO effect (none is
created on demand and the flag is lost): parsing is then identical to
parsing the input without that line. -/
theorem parse_new_file_mode_sets_flag :
    (∀ (diff : List Char) (pre rest : List (List Char)) (nfm : List Char),
      splitLines diff = pre ++ nfm :: rest →
      hasNewFileModeMarker nfm = true →
      (∀ l ∈ pre, fileHeaderMatch l = none ∧ oldFileMatch l = none) →
      DiffParser.parse diff =
        DiffParser.finalize (List.foldl DiffParser.step DiffParser.initState
          (pre ++ rest))) ∧
    (∀ (diff : List Char) (pre mid1 mid2 tail : List (List Char))
       (hdr1 hdr2 nfm o1 o2 F1 F2 : List Char),
      splitLines diff = pre ++ hdr1 :: ((mid1 ++ nfm :: mid2) ++ hdr2 :: tail) →
      fileHeaderMatch hdr1 = some (o1, F1) →
      fileHeaderMatch hdr2 = some (o2, F2) →
      F1 ≠ [] → F2 ≠ [] → hasNewFileModeMarker nfm = true →
      (∀ l ∈ pre, fileHeaderMatch l = none ∧ oldFileMatch l = none) →
      (∀ l ∈ mid1 ++ nfm :: mid2, fileHeaderMatch l = none) →
      (∀ l ∈ tail, fileHeaderMatch l = none ∧
        hasNewFileModeMarker l = false) →
      (DiffParser.parse diff).length = 2 ∧
      ((DiffParser.parse diff).headD dummyFile).file_path = F1 ∧
      ((DiffParser.parse diff).headD dummyFile).is_new_file = true ∧
      ((DiffParser.parse diff).getD 1 dummyFile).file_path = F2 ∧
      ((DiffParser.parse diff).getD 1 dummyFile).is_new_file = false) := by
  constructor
  · intro diff pre rest nfm hsplit hnfm hpre
    obtain ⟨hcf1, _⟩ := foldl_noFile pre DiffParser.initState rfl hpre
    have hstep : DiffParser.step (List.foldl DiffParser.step
        DiffParser.initState pre) nfm =
        List.foldl DiffParser.step DiffParser.initState pre := by
      rw [step_newFileMode _ hnfm, hcf1]
      simp only [Option.map_none']
      rw [← hcf1]
    unfold DiffParser.parse
    rw [hsplit, List.foldl_append, List.foldl_cons, hstep, ← List.foldl_append]
  · intro diff pre mid1 mid2 tail hdr1 hdr2 nfm o1 o2 F1 F2
      hsplit hm1 hm2 hF1 hF2 hnfm hpre hmid htail
    obtain ⟨hcf1, hfd1⟩ := foldl_noFile pre DiffParser.initState rfl hpre
    have hcf2 : (DiffParser.step (List.foldl DiffParser.step
        DiffParser.initState pre) hdr1).current_file =
        some { file_path := F1, old_path := some o1 } := by
      rw [step_fileHeader _ hm1]
    have hfd2 : (DiffParser.step (List.foldl DiffParser.step
        DiffParser.initState pre) hdr1).file_diffs = [] := by
      rw [step_fileHeader _ hm1]
      show (List.foldl DiffParser.step DiffParser.initState pre).file_diffs ++
        (List.foldl DiffParser.step DiffParser.initState
          pre).current_file.toList = []
      rw [hcf1, hfd1]
      rfl
    obtain ⟨f1', hXcf, hXfd, hXpath, hXflag⟩ :=
      foldl_keepFile (mid1 ++ nfm :: mid2) _
        { file_path := F1, old_path := some o1 } hcf2 hF1 hmid
    have hcf3 : (DiffParser.step (List.foldl DiffParser.step
        (DiffParser.step (List.foldl DiffParser.step DiffParser.initState pre)
          hdr1) (mid1 ++ nfm :: mid2)) hdr2).current_file =
        some { file_path := F2, old_path := some o2 } := by
      rw [step_fileHeader _ hm2]
    have hfd3 : (DiffParser.step (List.foldl DiffParser.step
        (DiffParser.step (List.foldl DiffParser.step DiffParser.initState pre)
          hdr1) (mid1 ++ nfm :: mid2)) hdr2).file_diffs = [f1'] := by
      rw [step_fileHeader _ hm2]
      show (List.foldl DiffParser.step _ (mid1 ++ nfm :: mid2)).file_diffs ++
        (List.foldl DiffParser.step _
          (mid1 ++ nfm :: mid2)).current_file.toList = [f1']
      rw [hXcf, hXfd, hfd2]
      rfl
    obtain ⟨f2', hYcf, hYfd, hYpath, hYflag⟩ :=
      foldl_keepFile tail _ { file_path := F2, old_path := some o2 } hcf3
        hF2 (fun l hl => (htail l hl).1)
    obtain ⟨f2'', hfin, hfinpath, hfinflag⟩ := finalize_of_file _ hYcf
    have hres : DiffParser.parse diff = [f1', f2''] := by
      unfold DiffParser.parse
      rw [hsplit, List.foldl_append, List.foldl_cons, List.foldl_append,
        List.foldl_cons, hfin, hYfd, hfd3]
      rfl
    have htailany : tail.any hasNewFileModeMarker = false := by
      rw [List.any_eq_false]
      intro x hx
      rw [(htail x hx).2]
      simp
    rw [hres]
    refine ⟨rfl, hXpath, ?_, ?_, ?_⟩
    · show f1'.is_new_file = true
      rw [hXflag]
      simp [List.any_append, List.any_cons, hnfm]
    · rw [List.getD, List.get?]
      show f2''.file_path = F2
      rw [hfinpath, hYpath]
    · rw [List.getD, List.get?]
      show f2''.is_new_file = false
      rw [hfinflag, hYflag, htailany]
      simp

/-- Witness for amended C6: part one at the input whose `new file mode` line
precedes any file, part two at a two-file diff whose first block carries the
marker. -/
theorem parse_new_file_mode_sets_flag_witness :
    (DiffParser.parse newFileModeFirstInput =
      DiffParser.finalize (List.foldl DiffParser.step DiffParser.initState
        ([] ++ [("--- a/f").toList, ("+++ b/f").toList,
                ("@@ -0,0 +1 @@").toList, ("+x").toList]))) ∧
    ((DiffParser.parse (("diff --git a/f1 b/f1\nnew file mode 100644\n@@ -1 +1 @@\n+x\ndiff --git a/f2 b/f2\n@@ -1 +1 @@\n+y").toList)).length = 2 ∧
     ((DiffParser.parse (("diff --git a/f1 b/f1\nnew file mode 100644\n@@ -1 +1 @@\n+x\ndiff --git a/f2 b/f2\n@@ -1 +1 @@\n+y").toList)).headD
       dummyFile).file_path = ("f1").toList ∧
     ((DiffParser.parse (("diff --git a/f1 b/f1\nnew file mode 100644\n@@ -1 +1 @@\n+x\ndiff --git a/f2 b/f2\n@@ -1 +1 @@\n+y").toList)).headD
       dummyFile).is_new_file = true ∧
     ((DiffParser.parse (("diff --git a/f1 b/f1\nnew file mode 100644\n@@ -1 +1 @@\n+x\ndiff --git a/f2 b/f2\n@@ -1 +1 @@\n+y").toList)).getD 1
       dummyFile).file_path = ("f2").toList ∧
     ((DiffParser.parse (("diff --git a/f1 b/f1\nnew file mode 100644\n@@ -1 +1 @@\n+x\ndiff --git a/f2 b/f2\n@@ -1 +1 @@\n+y").toList)).getD 1
       dummyFile).is_new_file = false) :=
  ⟨parse_new_file_mode_sets_flag.1 newFileModeFirstInput []
    [("--- a/f").toList, ("+++ b/f").toList,
     ("@@ -0,0 +1 @@").toList, ("+x").toList]
    (("new file mode 100644").toList) (by decide) (by decide) (by decide),
   parse_new_file_mode_sets_flag.2
    (("diff --git a/f1 b/f1\nnew file mode 100644\n@@ -1 +1 @@\n+x\ndiff --git a/f2 b/f2\n@@ -1 +1 @@\n+y").toList)
    [] [] [("@@ -1 +1 @@").toList, ("+x").toList]
    [("@@ -1 +1 @@").toList, ("+y").toList]
    (("diff --git a/f1 b/f1").toList) (("diff --git a/f2 b/f2").toList)
    (("new file mode 100644").toList)
    (("f1").toList) (("f2").toList) (("f1").toList) (("f2").toList)
    (by decide) (by decide) (by decide) (by decide) (by decide) (by decide)
    (by decide) (by decide) (by decide)⟩
